import Mathlib

/-!
Verification of `fink_broker/hbaseUtils.py`: the column-family assigner,
the row-key synthesizer, the HBase catalog compiler and the schema-snapshot
builder, embedded shallowly and checked against the specification's claims.
-/

set_option linter.unusedVariables false

/-- The JSON value of a Spark field type (`field.jsonValue()["type"]`):
either a plain string tag (primitive types such as `"string"`, `"double"`)
or a nested JSON object (arrays/structs), represented here by its payload
text so that distinct objects stay distinct. -/
inductive FType where
  | str : String → FType
  | dict : String → FType
deriving DecidableEq

/-- One field descriptor of a flattened schema, as produced by
`schema.jsonValue()["fields"]`: `{name, type, nullable, metadata}`. -/
structure SField where
  name : String
  type : FType
  nullable : Bool
  metadata : String
deriving DecidableEq

/-- Python `type(column["type"]) == dict`: true exactly when the JSON value
of the type is a nested object. -/
def isDictType : FType → Bool
  | .dict _ => true
  | .str _ => false

/-- Python `type(column["type"]) == 'timestamp'` compares the *type object*
of the value (`str` or `dict`) with the string literal `'timestamp'`; a type
object never equals a `str`, so the comparison is `False` for every value. -/
def typeObjEqStrLiteral : FType → String → Bool := fun _ _ => false

/-- The two in-place coercions applied to `column["type"]` inside the loop of
`construct_hbase_catalog_from_flatten_schema`: a dict-typed (nested) field
becomes `"string"`; then the dead timestamp check is applied. -/
def coerceField (f : SField) : SField :=
  let f1 := if isDictType f.type then { f with type := FType.str "string" } else f
  if typeObjEqStrLiteral f1.type "timestamp" then { f1 with type := FType.str "string" }
  else f1

/-- Rendering of a field type by Python string formatting (`'{}'.format`). -/
def typeRender : FType → String
  | .str s => s
  | .dict p => p

/-- Python dict assignment `d[k] = v`: replace the value at the first
occurrence of the key, else append the new binding. -/
def dictInsert : List (String × String) → String → String → List (String × String)
  | [], k, v => [(k, v)]
  | p :: d, k, v => if p.1 = k then (k, v) :: d else p :: dictInsert d k v

/-- Python dict lookup `d[k]` returning `none` on a missing key. -/
def dictGet? (d : List (String × String)) (k : String) : Option String :=
  (d.find? (fun p => p.1 == k)).map (fun p => p.2)

/-- Python `dict.update` with a constant value: insert every key of `ks`
in order, each mapped to `v` (later assignments win). -/
def dictUpdate (d : List (String × String)) (ks : List String) (v : String) :
    List (String × String) :=
  ks.foldl (fun acc k => dictInsert acc k v) d

/-- A DataFrame, reduced to what the embedded functions inspect: its column
names and its rows (string-valued cells aligned with the columns). -/
structure DataFrameM where
  cols : List String
  rows : List (List String)

/-- Modelled from the spec: `df.select(selectors).columns` of the external
query layer — the selected column names in selector order; a selector that
does not resolve to an existing column is silently absent (spec section 4.1). -/
def selectColumns (df : DataFrameM) (sel : List String) : List String :=
  sel.filter (fun s => df.cols.contains s)

/-- `assign_column_family_names(df, cols_i, cols_d, cols_b)`: build the
column-to-family dict with family `'i'` first, then update it with `'d'`,
then with `'b'`. -/
def assign_column_family_names (df : DataFrameM)
    (cols_i cols_d cols_b : List String) : List (String × String) :=
  let cf := dictUpdate [] (selectColumns df cols_i) "i"
  let cf := dictUpdate cf (selectColumns df cols_d) "d"
  dictUpdate cf (selectColumns df cols_b) "b"

/-- `retrieve_row_key_cols()`: the fixed identity-column list. -/
def retrieve_row_key_cols : List String :=
  ["objectId", "jd", "ra", "dec"]

/-- Value of column `c` in row `row` of `df` (string cells; `concat_ws`
skips missing values). -/
def colValue (df : DataFrameM) (row : List String) (c : String) : Option String :=
  (df.cols.findIdx? (fun n => n == c)).bind (fun i => row.get? i)

/-- `attach_rowkey(df, sep)`: append a column holding the `sep`-joined
string values of the identity columns; the *name* of the new column is the
identity-column names joined by the literal `'_'` (source line 161),
independent of `sep`. Returns the augmented DataFrame and the name. -/
def attach_rowkey (df : DataFrameM) (sep : String) : DataFrameM × String :=
  let row_key_cols := retrieve_row_key_cols
  let row_key_name := String.intercalate "_" row_key_cols
  let df' : DataFrameM :=
    { cols := df.cols ++ [row_key_name]
      rows := df.rows.map (fun r =>
        r ++ [String.intercalate sep (row_key_cols.filterMap (colValue df r))]) }
  (df', row_key_name)

/-- The error raised when a non-key column has no entry in the family
mapping (a Python `KeyError`; `UnassignedFamilyError` in the spec). -/
inductive HBaseError where
  | unassignedFamily : String → HBaseError
deriving DecidableEq

/-- One catalog entry as emitted by the loop of
`construct_hbase_catalog_from_flatten_schema`: the field name, the family,
the qualifier (`col`), the rendered type, and the separator appended after
the closing brace of the entry (`","` or `""`). -/
structure CatEntry where
  name : String
  cf : String
  col : String
  typ : String
  sep : String
deriving DecidableEq

/-- The loop of `construct_hbase_catalog_from_flatten_schema`, one step per
field. `done` holds the already-processed (hence already type-coerced, the
loop mutates the list in place) prefix; `rest` the fields still to process.
At each step the separator is chosen by `schema_columns.index(column)`
(first structurally-equal element of the *current* list) compared with
`len(schema_columns) - 1`; then the type coercions are applied in place;
then an entry is emitted — the reserved family `'rowkey'` when the field
name equals `rowkeyname`, else the family looked up in `cf` (a missing key
raises). -/
def catalogAux (cf : List (String × String)) (rowkeyname : String) :
    List SField → List SField → Except HBaseError (List CatEntry)
  | _done, [] => .ok []
  | done, c :: rest =>
    let all := done ++ c :: rest
    let sep := if all.findIdx (fun x => x == c) ≠ all.length - 1 then "," else ""
    let c' := coerceField c
    if c.name == rowkeyname then
      (catalogAux cf rowkeyname (done ++ [c']) rest).map
        (fun es => ⟨c.name, "rowkey", c.name, typeRender c'.type, sep⟩ :: es)
    else
      match dictGet? cf c.name with
      | some fam =>
        (catalogAux cf rowkeyname (done ++ [c']) rest).map
          (fun es => ⟨c.name, fam, c.name, typeRender c'.type, sep⟩ :: es)
      | none => .error (.unassignedFamily c.name)

/-- The structured content of the catalog produced by
`construct_hbase_catalog_from_flatten_schema`: its list of entries in
emission order (or the lookup error). -/
def catalogEntries (fields : List SField) (rowkeyname : String)
    (cf : List (String × String)) : Except HBaseError (List CatEntry) :=
  catalogAux cf rowkeyname [] fields

/-- The header template of the catalog, after `.format(catalogname,
rowkeyname)` (single quotes still unreplaced). -/
def catalogHeader (catalogname rowkeyname : String) : String :=
  "\n    \x7b\n        \x27table\x27: \x7b\n            \x27namespace\x27: \x27default\x27,\n            \x27name\x27: \x27"
    ++ catalogname
    ++ "\x27\n        \x7d,\n        \x27rowkey\x27: \x27"
    ++ rowkeyname
    ++ "\x27,\n        \x27columns\x27: \x7b\n    "

/-- One formatted catalog entry (both branches of the source share this
shape; the rowkey branch fixes `cf` to `'rowkey'`). -/
def renderEntry (e : CatEntry) : String :=
  "\n            \x27" ++ e.name ++ "\x27: \x7b\x27cf\x27: \x27" ++ e.cf
    ++ "\x27, \x27col\x27: \x27" ++ e.col ++ "\x27, \x27type\x27: \x27" ++ e.typ
    ++ "\x27\x7d" ++ e.sep ++ "\n            "

/-- The closing template appended after the loop. -/
def catalogFooter : String := "\n        \x7d\n    \x7d\n    "

/-- `construct_hbase_catalog_from_flatten_schema(schema, catalogname,
rowkeyname, cf)`: header, the emitted entries in schema order, footer, and
the final global replacement of single quotes by double quotes. -/
def construct_hbase_catalog_from_flatten_schema (fields : List SField)
    (catalogname rowkeyname : String) (cf : List (String × String)) :
    Except HBaseError String :=
  (catalogEntries fields rowkeyname cf).map (fun es =>
    (catalogHeader catalogname rowkeyname
      ++ String.join (es.map renderEntry)
      ++ catalogFooter).replace "\x27" "\x22")

/-- `construct_schema_row(df, rowkeyname, version)`: the single row of the
schema-snapshot DataFrame — per column its declared type
(`c.jsonValue()['type']`), with the value at the first position whose
column name equals `rowkeyname` (`np.where(...)[0][0]`) replaced by the
version label; an `IndexError` when no column matches. The input DataFrame
is represented by its schema; its column names are the field names. -/
def construct_schema_row (fields : List SField) (rowkeyname version : String) :
    Except String (List FType) :=
  let data := fields.map (fun c => c.type)
  match (fields.map (fun c => c.name)).findIdx? (fun n => n == rowkeyname) with
  | none => .error "IndexError"
  | some index => .ok (data.set index (FType.str version))

/-- The entry the catalog loop emits for field `f` with separator `s`
(reference description used to state the loop's behaviour on schemas with
pairwise-distinct column names). -/
def expectedEntry (cf : List (String × String)) (rk : String) (f : SField)
    (s : String) : CatEntry :=
  if f.name = rk then ⟨f.name, "rowkey", f.name, typeRender (coerceField f).type, s⟩
  else ⟨f.name, (dictGet? cf f.name).getD "", f.name, typeRender (coerceField f).type, s⟩

/-- Reference entry list: one entry per field in order, comma separator on
every entry but the last. -/
def expectedEntriesAux (cf : List (String × String)) (rk : String) :
    List SField → List CatEntry
  | [] => []
  | f :: rest =>
    expectedEntry cf rk f (if rest.isEmpty then "" else ",") :: expectedEntriesAux cf rk rest

/-- The schema of the schema-snapshot example of the spec:
`[objectId:string, jd:double, candid:long, schema_version:string]`. -/
def exC7 : List SField :=
  [⟨"objectId", .str "string", true, "\x7b\x7d"⟩,
   ⟨"jd", .str "double", true, "\x7b\x7d"⟩,
   ⟨"candid", .str "long", true, "\x7b\x7d"⟩,
   ⟨"schema_version", .str "string", true, "\x7b\x7d"⟩]

/-! ## Helper lemmas -/

theorem coerceField_eq (f : SField) :
    coerceField f = if isDictType f.type then { f with type := FType.str "string" } else f := by
  simp [coerceField, typeObjEqStrLiteral]

theorem coerceField_name (f : SField) : (coerceField f).name = f.name := by
  rw [coerceField_eq]
  split <;> rfl

theorem dictGet?_cons (p : String × String) (d : List (String × String)) (c : String) :
    dictGet? (p :: d) c = if p.1 = c then some p.2 else dictGet? d c := by
  by_cases h : p.1 = c
  · simp [dictGet?, List.find?, h]
  · have hb : (p.1 == c) = false := by simp [h]
    simp [dictGet?, List.find?, hb, h]

theorem dictGet?_insert (d : List (String × String)) (k v c : String) :
    dictGet? (dictInsert d k v) c = if c = k then some v else dictGet? d c := by
  induction d with
  | nil =>
    by_cases h : c = k
    · subst h; simp [dictInsert, dictGet?_cons]
    · have hk : ¬ (k = c) := fun hh => h hh.symm
      simp [dictInsert, dictGet?_cons, dictGet?, hk, h]
  | cons p d ih =>
    by_cases hpk : p.1 = k
    · by_cases hck : c = k
      · subst hck; simp [dictInsert, hpk, dictGet?_cons]
      · have hpc : ¬ (p.1 = c) := fun hh => hck ((hh.symm.trans hpk))
        have hkc : ¬ (k = c) := fun hh => hck hh.symm
        simp [dictInsert, hpk, dictGet?_cons, hpc, hkc, hck]
    · by_cases hpc : p.1 = c
      · have hck : ¬ (c = k) := fun hh => hpk (hpc.trans hh)
        simp [dictInsert, hpk, dictGet?_cons, hpc, hck]
      · simp [dictInsert, hpk, dictGet?_cons, hpc, ih]

theorem dictGet?_nil (c : String) : dictGet? [] c = none := rfl

theorem dictGet?_update (ks : List String) (v c : String) :
    ∀ d, dictGet? (dictUpdate d ks v) c = if c ∈ ks then some v else dictGet? d c := by
  induction ks with
  | nil => intro d; simp [dictUpdate]
  | cons k ks ih =>
    intro d
    have hstep : dictUpdate d (k :: ks) v = dictUpdate (dictInsert d k v) ks v := rfl
    rw [hstep, ih, dictGet?_insert]
    by_cases h1 : c ∈ ks <;> by_cases h2 : c = k <;>
      simp [h1, h2, List.mem_cons]

theorem assign_lookup_cases (df : DataFrameM) (cols_i cols_d cols_b : List String)
    (c : String) :
    dictGet? (assign_column_family_names df cols_i cols_d cols_b) c =
      if c ∈ selectColumns df cols_b then some "b"
      else if c ∈ selectColumns df cols_d then some "d"
      else if c ∈ selectColumns df cols_i then some "i"
      else none := by
  unfold assign_column_family_names
  rw [dictGet?_update, dictGet?_update, dictGet?_update, dictGet?_nil]

theorem mem_cols_of_mem_selectColumns (df : DataFrameM) (sel : List String)
    (s : String) (h : s ∈ selectColumns df sel) : s ∈ df.cols := by
  have := (List.mem_filter.mp h).2
  simpa using this

/-! ## Claim C5 -/

/-- C5: `assign_column_family_names` maps each column selected by a list to
that list's tag (`'i'`, `'d'`, `'b'`); a column selected by more than one
list receives the tag of the list applied last — `'b'` overrides `'d'` and
`'i'`, and `'d'` overrides `'i'` (last assignment wins). -/
theorem C5_assign_column_family_last_wins (df : DataFrameM)
    (cols_i cols_d cols_b : List String) (c : String) :
    dictGet? (assign_column_family_names df cols_i cols_d cols_b) c =
      if c ∈ selectColumns df cols_b then some "b"
      else if c ∈ selectColumns df cols_d then some "d"
      else if c ∈ selectColumns df cols_i then some "i"
      else none :=
  assign_lookup_cases df cols_i cols_d cols_b c

/-! ## Claim C8 -/

/-- C8: a selector that does not resolve to an existing schema column causes
no error in `assign_column_family_names`; it is simply absent from the
resulting mapping (the function is total and the lookup yields `none`). -/
theorem C8_assign_unresolved_selector_silent (df : DataFrameM)
    (cols_i cols_d cols_b : List String) (s : String) (h : s ∉ df.cols) :
    dictGet? (assign_column_family_names df cols_i cols_d cols_b) s = none := by
  rw [assign_lookup_cases]
  have hb : s ∉ selectColumns df cols_b := fun hm => h (mem_cols_of_mem_selectColumns _ _ _ hm)
  have hd : s ∉ selectColumns df cols_d := fun hm => h (mem_cols_of_mem_selectColumns _ _ _ hm)
  have hi : s ∉ selectColumns df cols_i := fun hm => h (mem_cols_of_mem_selectColumns _ _ _ hm)
  simp [hb, hd, hi]

/-- Witness for C8 at a concrete input: the DataFrame has only column
`"a"`, the family lists mention the unresolvable selector `"bogus"`. -/
theorem C8_witness :
    ("bogus" ∉ (⟨["a"], []⟩ : DataFrameM).cols) ∧
    dictGet? (assign_column_family_names ⟨["a"], []⟩ ["a", "bogus"] [] ["bogus"]) "bogus"
      = none :=
  ⟨by decide, C8_assign_unresolved_selector_silent ⟨["a"], []⟩ ["a", "bogus"] [] ["bogus"]
    "bogus" (by decide)⟩

/-! ## Claim C4 -/

/-- C4 counterexample: with separator `"-"` the row-key *name* returned by
`attach_rowkey` is still `"objectId_jd_ra_dec"` (the source joins the name
with the literal `'_'`), not the identity columns joined by `sep`. -/
theorem C4_counterexample :
    (attach_rowkey ⟨["objectId", "jd", "ra", "dec"], [["o", "1", "2", "3"]]⟩ "-").2
      ≠ String.intercalate "-" retrieve_row_key_cols ∧
    (attach_rowkey ⟨["objectId", "jd", "ra", "dec"], [["o", "1", "2", "3"]]⟩ "-").2
      = "objectId_jd_ra_dec" := by
  constructor
  · decide
  · rfl

/-- C4 amended: for every input record set and every separator, the row-key
name returned by `attach_rowkey(df, sep)` equals the identity-column names
joined by the literal `'_'` (not by `sep`) in the fixed order, i.e. it is
always `"objectId_jd_ra_dec"`; `sep` only affects the row-key *values*. -/
theorem C4_rowkey_name_joined_with_underscore (df : DataFrameM) (sep : String) :
    (attach_rowkey df sep).2 = String.intercalate "_" retrieve_row_key_cols ∧
    (attach_rowkey df sep).2 = "objectId_jd_ra_dec" :=
  ⟨rfl, rfl⟩

theorem catalogAux_cons_rowkey (cf : List (String × String)) (rk : String)
    (done : List SField) (c : SField) (rest : List SField) (hc : c.name = rk) :
    catalogAux cf rk done (c :: rest) =
      (catalogAux cf rk (done ++ [coerceField c]) rest).map
        (fun es => ⟨c.name, "rowkey", c.name, typeRender (coerceField c).type,
          if (done ++ c :: rest).findIdx (fun x => x == c) ≠ (done ++ c :: rest).length - 1
          then "," else ""⟩ :: es) := by
  simp only [catalogAux]
  rw [if_pos (by simp [hc])]

theorem catalogAux_cons_fam (cf : List (String × String)) (rk : String)
    (done : List SField) (c : SField) (rest : List SField) (fam : String)
    (hc : ¬ c.name = rk) (hfam : dictGet? cf c.name = some fam) :
    catalogAux cf rk done (c :: rest) =
      (catalogAux cf rk (done ++ [coerceField c]) rest).map
        (fun es => ⟨c.name, fam, c.name, typeRender (coerceField c).type,
          if (done ++ c :: rest).findIdx (fun x => x == c) ≠ (done ++ c :: rest).length - 1
          then "," else ""⟩ :: es) := by
  simp only [catalogAux]
  rw [if_neg (by simp [hc]), hfam]

theorem catalogAux_cons_err (cf : List (String × String)) (rk : String)
    (done : List SField) (c : SField) (rest : List SField)
    (hc : ¬ c.name = rk) (hnone : dictGet? cf c.name = none) :
    catalogAux cf rk done (c :: rest) = .error (.unassignedFamily c.name) := by
  simp only [catalogAux]
  rw [if_neg (by simp [hc]), hnone]

theorem catalogAux_isOk (cf : List (String × String)) (rk : String) :
    ∀ (rest done : List SField),
      (∀ f ∈ rest, f.name ≠ rk → (dictGet? cf f.name).isSome = true) →
      ∃ es, catalogAux cf rk done rest = .ok es := by
  intro rest
  induction rest with
  | nil => exact fun done _ => ⟨[], rfl⟩
  | cons c rest ih =>
    intro done h
    obtain ⟨es, hes⟩ := ih (done ++ [coerceField c])
      (fun f hf hfn => h f (List.mem_cons_of_mem _ hf) hfn)
    by_cases hc : c.name = rk
    · rw [catalogAux_cons_rowkey cf rk done c rest hc, hes]
      exact ⟨_, rfl⟩
    · have hsome := h c (List.mem_cons_self _ _) hc
      obtain ⟨fam, hfam⟩ := Option.isSome_iff_exists.mp hsome
      rw [catalogAux_cons_fam cf rk done c rest fam hc hfam, hes]
      exact ⟨_, rfl⟩

theorem catalogAux_error (cf : List (String × String)) (rk : String) :
    ∀ (rest done : List SField) (f : SField), f ∈ rest → f.name ≠ rk →
      dictGet? cf f.name = none →
      ∃ cn, catalogAux cf rk done rest = .error (.unassignedFamily cn) := by
  intro rest
  induction rest with
  | nil => intro done f hf; cases hf
  | cons c rest ih =>
    intro done f hf hne hnone
    rcases List.mem_cons.mp hf with hfc | hf'
    · subst hfc
      exact ⟨f.name, catalogAux_cons_err cf rk done f rest hne hnone⟩
    · by_cases hc : c.name = rk
      · obtain ⟨cn, hcn⟩ := ih (done ++ [coerceField c]) f hf' hne hnone
        refine ⟨cn, ?_⟩
        rw [catalogAux_cons_rowkey cf rk done c rest hc, hcn]
        rfl
      · cases hlook : dictGet? cf c.name with
        | none => exact ⟨c.name, catalogAux_cons_err cf rk done c rest hc hlook⟩
        | some fam =>
          obtain ⟨cn, hcn⟩ := ih (done ++ [coerceField c]) f hf' hne hnone
          refine ⟨cn, ?_⟩
          rw [catalogAux_cons_fam cf rk done c rest fam hc hlook, hcn]
          rfl

/-! ## Claim C3 -/

/-- C3: if some schema column whose name differs from the row-key name has
no entry in the family mapping, `construct_hbase_catalog_from_flatten_schema`
raises the lookup error (`UnassignedFamilyError`) instead of returning a
descriptor. -/
theorem C3_missing_family_raises (fields : List SField)
    (catalogname rowkeyname : String) (cf : List (String × String)) (f : SField)
    (hf : f ∈ fields) (hne : f.name ≠ rowkeyname)
    (hmiss : dictGet? cf f.name = none) :
    ∃ cn, catalogEntries fields rowkeyname cf = .error (.unassignedFamily cn) ∧
      construct_hbase_catalog_from_flatten_schema fields catalogname rowkeyname cf
        = .error (.unassignedFamily cn) := by
  obtain ⟨cn, hcn⟩ := catalogAux_error cf rowkeyname fields [] f hf hne hmiss
  refine ⟨cn, hcn, ?_⟩
  unfold construct_hbase_catalog_from_flatten_schema
  rw [show catalogEntries fields rowkeyname cf = _ from hcn]
  rfl

/-- Witness for C3: schema `[x, rk]`, empty family mapping — compilation
errors on column `"x"`. -/
theorem C3_witness :
    ((⟨"x", .str "string", true, "\x7b\x7d"⟩ : SField)
        ∈ [(⟨"x", .str "string", true, "\x7b\x7d"⟩ : SField),
           ⟨"rk", .str "string", true, "\x7b\x7d"⟩]) ∧
    (⟨"x", .str "string", true, "\x7b\x7d"⟩ : SField).name ≠ "rk" ∧
    dictGet? [] (⟨"x", .str "string", true, "\x7b\x7d"⟩ : SField).name = none ∧
    ∃ cn, catalogEntries
        [(⟨"x", .str "string", true, "\x7b\x7d"⟩ : SField),
         ⟨"rk", .str "string", true, "\x7b\x7d"⟩] "rk" [] = .error (.unassignedFamily cn) ∧
      construct_hbase_catalog_from_flatten_schema
        [(⟨"x", .str "string", true, "\x7b\x7d"⟩ : SField),
         ⟨"rk", .str "string", true, "\x7b\x7d"⟩] "cat" "rk" []
        = .error (.unassignedFamily cn) :=
  ⟨by decide, by decide, rfl,
    C3_missing_family_raises
      [(⟨"x", .str "string", true, "\x7b\x7d"⟩ : SField),
       ⟨"rk", .str "string", true, "\x7b\x7d"⟩] "cat" "rk" []
      ⟨"x", .str "string", true, "\x7b\x7d"⟩ (by decide) (by decide) rfl⟩

/-! ## Claim C9 -/

/-- C9: the row-key column is never looked up in the family mapping — for
every schema containing the row-key column and every family mapping that
covers all the other columns but has no entry for the row-key column,
compilation succeeds without an `UnassignedFamilyError`. -/
theorem C9_rowkey_not_looked_up (fields : List SField)
    (catalogname rowkeyname : String) (cf : List (String × String))
    (hmem : rowkeyname ∈ fields.map SField.name)
    (hnokey : dictGet? cf rowkeyname = none)
    (hcov : ∀ f ∈ fields, f.name ≠ rowkeyname → (dictGet? cf f.name).isSome = true) :
    ∃ es s, catalogEntries fields rowkeyname cf = .ok es ∧
      construct_hbase_catalog_from_flatten_schema fields catalogname rowkeyname cf
        = .ok s := by
  obtain ⟨es, hes⟩ := catalogAux_isOk cf rowkeyname fields [] hcov
  have h2 : construct_hbase_catalog_from_flatten_schema fields catalogname rowkeyname cf
      = .ok ((catalogHeader catalogname rowkeyname
          ++ String.join (es.map renderEntry) ++ catalogFooter).replace "\x27" "\x22") := by
    unfold construct_hbase_catalog_from_flatten_schema
    rw [show catalogEntries fields rowkeyname cf = _ from hes]
    rfl
  exact ⟨es, _, hes, h2⟩

/-- Witness for C9, at the extreme input of the claim: the row-key column is
the schema's only column and the family mapping is empty. -/
theorem C9_witness :
    ("rk" ∈ [(⟨"rk", .str "string", true, "\x7b\x7d"⟩ : SField)].map SField.name) ∧
    dictGet? [] "rk" = none ∧
    ∃ es s, catalogEntries [(⟨"rk", .str "string", true, "\x7b\x7d"⟩ : SField)] "rk" []
        = .ok es ∧
      construct_hbase_catalog_from_flatten_schema
        [(⟨"rk", .str "string", true, "\x7b\x7d"⟩ : SField)] "cat" "rk" [] = .ok s :=
  ⟨by decide, rfl,
    C9_rowkey_not_looked_up _ "cat" "rk" [] (by decide) rfl (by decide)⟩

theorem expectedEntry_name (cf : List (String × String)) (rk : String) (f : SField)
    (s : String) : (expectedEntry cf rk f s).name = f.name := by
  unfold expectedEntry; split <;> rfl

theorem expectedEntry_sep (cf : List (String × String)) (rk : String) (f : SField)
    (s : String) : (expectedEntry cf rk f s).sep = s := by
  unfold expectedEntry; split <;> rfl

theorem findIdx_middle (done : List SField) (c : SField) (rest : List SField)
    (hnotin : ∀ x ∈ done, (x == c) = false) :
    (done ++ c :: rest).findIdx (fun x => x == c) = done.length := by
  rw [List.findIdx_append]
  have h1 : done.findIdx (fun x => x == c) = done.length :=
    List.findIdx_eq_length_of_false hnotin
  have h2 : (c :: rest).findIdx (fun x => x == c) = 0 := by
    rw [List.findIdx_cons]
    simp
  rw [h1, h2]
  simp

theorem catalogAux_eq_expected (cf : List (String × String)) (rk : String) :
    ∀ (rest done : List SField),
      (∀ f ∈ rest, f.name ≠ rk → (dictGet? cf f.name).isSome = true) →
      ((done ++ rest).map SField.name).Nodup →
      catalogAux cf rk done rest = .ok (expectedEntriesAux cf rk rest) := by
  intro rest
  induction rest with
  | nil => intro done _ _; rfl
  | cons c rest ih =>
    intro done hcov hnd
    -- the first occurrence of `c` in the current list is its own position
    have hnamec : c.name ∉ done.map SField.name := by
      have := hnd
      rw [List.map_append, List.nodup_append] at this
      exact fun hmem => this.2.2 hmem (by simp)
    have hnotin : ∀ x ∈ done, (x == c) = false := by
      intro x hx
      have hxname : x.name ∈ done.map SField.name := List.mem_map_of_mem _ hx
      apply beq_eq_false_iff_ne.mpr
      intro hxc
      exact hnamec (hxc ▸ hxname)
    have hidx : (done ++ c :: rest).findIdx (fun x => x == c) = done.length :=
      findIdx_middle done c rest hnotin
    have hlen : (done ++ c :: rest).length - 1 = done.length + rest.length := by
      simp [List.length_append]
    -- the recursive call
    have hnd' : (((done ++ [coerceField c]) ++ rest).map SField.name).Nodup := by
      have heq : ((done ++ [coerceField c]) ++ rest).map SField.name
          = (done ++ c :: rest).map SField.name := by
        simp [List.map_append, coerceField_name]
      rw [heq]; exact hnd
    have hrec := ih (done ++ [coerceField c])
      (fun f hf hfn => hcov f (List.mem_cons_of_mem _ hf) hfn) hnd'
    -- the separator of the emitted entry
    have hsep : (if (done ++ c :: rest).findIdx (fun x => x == c)
          ≠ (done ++ c :: rest).length - 1 then "," else "")
        = (if rest.isEmpty then "" else ",") := by
      rw [hidx, hlen]
      cases rest with
      | nil => simp
      | cons g r => simp [Nat.ne_of_lt (Nat.lt_add_of_pos_right (Nat.succ_pos r.length))]
    by_cases hc : c.name = rk
    · rw [catalogAux_cons_rowkey cf rk done c rest hc, hrec]
      show Except.ok _ = _
      rw [show expectedEntriesAux cf rk (c :: rest)
          = expectedEntry cf rk c (if rest.isEmpty then "" else ",")
            :: expectedEntriesAux cf rk rest from rfl]
      rw [show expectedEntry cf rk c (if rest.isEmpty then "" else ",")
          = ⟨c.name, "rowkey", c.name, typeRender (coerceField c).type,
              (if rest.isEmpty then "" else ",")⟩ from by
        unfold expectedEntry; rw [if_pos hc]]
      rw [hsep]
    · have hsome := hcov c (List.mem_cons_self _ _) hc
      obtain ⟨fam, hfam⟩ := Option.isSome_iff_exists.mp hsome
      rw [catalogAux_cons_fam cf rk done c rest fam hc hfam, hrec]
      show Except.ok _ = _
      rw [show expectedEntriesAux cf rk (c :: rest)
          = expectedEntry cf rk c (if rest.isEmpty then "" else ",")
            :: expectedEntriesAux cf rk rest from rfl]
      rw [show expectedEntry cf rk c (if rest.isEmpty then "" else ",")
          = ⟨c.name, fam, c.name, typeRender (coerceField c).type,
              (if rest.isEmpty then "" else ",")⟩ from by
        unfold expectedEntry; rw [if_neg hc, hfam]; rfl]
      rw [hsep]

theorem expectedEntriesAux_names (cf : List (String × String)) (rk : String) :
    ∀ fs : List SField,
      (expectedEntriesAux cf rk fs).map CatEntry.name = fs.map SField.name := by
  intro fs
  induction fs with
  | nil => rfl
  | cons f rest ih =>
    show (expectedEntry cf rk f _).name :: _ = _
    rw [expectedEntry_name, ih]
    rfl

theorem expectedEntriesAux_length (cf : List (String × String)) (rk : String) :
    ∀ fs : List SField, (expectedEntriesAux cf rk fs).length = fs.length := by
  intro fs
  induction fs with
  | nil => rfl
  | cons f rest ih =>
    show (_ :: _).length = _
    simp [ih]

theorem expectedEntriesAux_sep (cf : List (String × String)) (rk : String) :
    ∀ (fs : List SField) (k : Nat) (hk : k < (expectedEntriesAux cf rk fs).length),
      ((expectedEntriesAux cf rk fs).get ⟨k, hk⟩).sep
        = if k = fs.length - 1 then "" else "," := by
  intro fs
  induction fs with
  | nil => intro k hk; cases hk
  | cons f rest ih =>
    intro k hk
    cases k with
    | zero =>
      show (expectedEntry cf rk f _).sep = _
      rw [expectedEntry_sep]
      cases rest with
      | nil => rfl
      | cons g r => simp
    | succ k =>
      have hk' : k < (expectedEntriesAux cf rk rest).length := by
        have := hk
        simp only [expectedEntriesAux, List.length_cons] at this
        omega
      show ((expectedEntriesAux cf rk rest).get ⟨k, hk'⟩).sep = _
      rw [ih k hk']
      cases rest with
      | nil => cases hk'
      | cons g r => simp [Nat.succ_eq_add_one]

/-! ## Claim C1 -/

/-- C1 counterexample: a flattened schema with two identical field
descriptors (duplicate column names are legal in a flattened DataFrame) and
a family mapping covering all non-key columns. `schema_columns.index(column)`
finds the *first* structurally-equal descriptor, so the last entry is not
recognised as last and a comma is emitted after it — the output keeps one
ordered entry per field, but the no-trailing-comma part of the claim fails. -/
theorem C1_counterexample :
    catalogEntries
        [(⟨"a", .str "string", true, "\x7b\x7d"⟩ : SField),
         ⟨"a", .str "string", true, "\x7b\x7d"⟩] "rk" [("a", "i")]
      = .ok [⟨"a", "i", "a", "string", ","⟩, ⟨"a", "i", "a", "string", ","⟩] ∧
    (catalogEntries
        [(⟨"a", .str "string", true, "\x7b\x7d"⟩ : SField),
         ⟨"a", .str "string", true, "\x7b\x7d"⟩] "rk" [("a", "i")]).map
      (fun es => es.map CatEntry.sep) = .ok [",", ","] := by
  constructor
  · rfl
  · rfl

/-- C1 amended: for every flattened schema with pairwise-distinct column
names, and every table name, row-key name and family mapping covering all
non-key columns, the catalog contains exactly one entry per schema field,
the entries appear in schema order, the last entry carries no comma and all
earlier entries do. -/
theorem C1_entries_ordered_no_trailing_comma (fields : List SField)
    (rowkeyname : String) (cf : List (String × String))
    (hnd : (fields.map SField.name).Nodup)
    (hcov : ∀ f ∈ fields, f.name ≠ rowkeyname → (dictGet? cf f.name).isSome = true) :
    ∃ es, catalogEntries fields rowkeyname cf = .ok es ∧
      es.length = fields.length ∧
      es.map CatEntry.name = fields.map SField.name ∧
      (∀ k (hk : k < es.length),
        (es.get ⟨k, hk⟩).sep = if k = es.length - 1 then "" else ",") ∧
      ∀ catalogname,
        construct_hbase_catalog_from_flatten_schema fields catalogname rowkeyname cf
          = .ok ((catalogHeader catalogname rowkeyname
              ++ String.join (es.map renderEntry) ++ catalogFooter).replace "\x27" "\x22") := by
  have h := catalogAux_eq_expected cf rowkeyname fields [] hcov (by simpa using hnd)
  refine ⟨expectedEntriesAux cf rowkeyname fields, h,
    expectedEntriesAux_length cf rowkeyname fields,
    expectedEntriesAux_names cf rowkeyname fields, ?_, ?_⟩
  · intro k hk
    rw [expectedEntriesAux_sep cf rowkeyname fields k hk,
      expectedEntriesAux_length cf rowkeyname fields]
  · intro catalogname
    unfold construct_hbase_catalog_from_flatten_schema
    rw [show catalogEntries fields rowkeyname cf = _ from h]
    rfl

/-- Witness for C1 (amended): a two-column schema with distinct names. -/
theorem C1_witness :
    (([(⟨"objectId", .str "string", true, "\x7b\x7d"⟩ : SField),
       ⟨"rk", .str "string", true, "\x7b\x7d"⟩].map SField.name).Nodup) ∧
    (∀ f ∈ [(⟨"objectId", .str "string", true, "\x7b\x7d"⟩ : SField),
            ⟨"rk", .str "string", true, "\x7b\x7d"⟩],
      f.name ≠ "rk" → (dictGet? [("objectId", "i")] f.name).isSome = true) ∧
    ∃ es, catalogEntries
        [(⟨"objectId", .str "string", true, "\x7b\x7d"⟩ : SField),
         ⟨"rk", .str "string", true, "\x7b\x7d"⟩] "rk" [("objectId", "i")] = .ok es ∧
      es.length = [(⟨"objectId", .str "string", true, "\x7b\x7d"⟩ : SField),
         ⟨"rk", .str "string", true, "\x7b\x7d"⟩].length ∧
      es.map CatEntry.name = [(⟨"objectId", .str "string", true, "\x7b\x7d"⟩ : SField),
         ⟨"rk", .str "string", true, "\x7b\x7d"⟩].map SField.name ∧
      (∀ k (hk : k < es.length),
        (es.get ⟨k, hk⟩).sep = if k = es.length - 1 then "" else ",") ∧
      ∀ catalogname,
        construct_hbase_catalog_from_flatten_schema
            [(⟨"objectId", .str "string", true, "\x7b\x7d"⟩ : SField),
             ⟨"rk", .str "string", true, "\x7b\x7d"⟩] catalogname "rk" [("objectId", "i")]
          = .ok ((catalogHeader catalogname "rk"
              ++ String.join (es.map renderEntry) ++ catalogFooter).replace "\x27" "\x22") :=
  ⟨by decide, by decide,
    C1_entries_ordered_no_trailing_comma
      [(⟨"objectId", .str "string", true, "\x7b\x7d"⟩ : SField),
       ⟨"rk", .str "string", true, "\x7b\x7d"⟩] "rk" [("objectId", "i")]
      (by decide) (by decide)⟩

theorem dictGet?_mem_values (cf : List (String × String)) (n v : String)
    (h : dictGet? cf n = some v) : ∃ p ∈ cf, p.2 = v := by
  unfold dictGet? at h
  cases hf : cf.find? (fun p => p.1 == n) with
  | none => rw [hf] at h; cases h
  | some p =>
    rw [hf] at h
    exact ⟨p, List.mem_of_find?_eq_some hf, Option.some.inj h⟩

theorem expectedEntry_cf_rowkey (cf : List (String × String)) (rk : String)
    (f : SField) (s : String) (heq : f.name = rk) :
    (expectedEntry cf rk f s).cf = "rowkey" := by
  unfold expectedEntry; rw [if_pos heq]

theorem expectedEntry_cf_of_ne (cf : List (String × String)) (rk : String)
    (f : SField) (s : String) (hval : ∀ p ∈ cf, p.2 ≠ "rowkey")
    (hsome : (dictGet? cf f.name).isSome = true) (hne : f.name ≠ rk) :
    (expectedEntry cf rk f s).cf ≠ "rowkey" := by
  obtain ⟨v, hv⟩ := Option.isSome_iff_exists.mp hsome
  obtain ⟨p, hp, hpv⟩ := dictGet?_mem_values cf f.name v hv
  unfold expectedEntry
  rw [if_neg hne]
  show (dictGet? cf f.name).getD "" ≠ "rowkey"
  rw [hv]
  exact hpv ▸ hval p hp

theorem expectedEntriesAux_rowkey_count (cf : List (String × String)) (rk : String)
    (hval : ∀ p ∈ cf, p.2 ≠ "rowkey") :
    ∀ fs : List SField,
      (∀ f ∈ fs, f.name ≠ rk → (dictGet? cf f.name).isSome = true) →
      (expectedEntriesAux cf rk fs).countP (fun e => e.cf == "rowkey")
        = (fs.map SField.name).count rk := by
  intro fs
  induction fs with
  | nil => intro _; rfl
  | cons f rest ih =>
    intro hcov
    have htail := ih (fun g hg hgn => hcov g (List.mem_cons_of_mem _ hg) hgn)
    show List.countP _ (_ :: _) = _
    rw [List.countP_cons, htail]
    by_cases hf : f.name = rk
    · have hcf : ∀ s, (expectedEntry cf rk f s).cf = "rowkey" :=
        fun s => expectedEntry_cf_rowkey cf rk f s hf
      simp [List.count_cons, hf, hcf]
    · have hcf : ∀ s, (expectedEntry cf rk f s).cf ≠ "rowkey" :=
        fun s => expectedEntry_cf_of_ne cf rk f s hval
          (hcov f (List.mem_cons_self _ _) hf) hf
      simp [List.count_cons, hf, hcf]

theorem expectedEntriesAux_rowkey_col (cf : List (String × String)) (rk : String)
    (hval : ∀ p ∈ cf, p.2 ≠ "rowkey") :
    ∀ fs : List SField,
      (∀ f ∈ fs, f.name ≠ rk → (dictGet? cf f.name).isSome = true) →
      ∀ e ∈ expectedEntriesAux cf rk fs, e.cf = "rowkey" → e.col = rk := by
  intro fs
  induction fs with
  | nil => intro _ e he; cases he
  | cons f rest ih =>
    intro hcov e he hecf
    rcases List.mem_cons.mp he with hhead | he'
    · subst hhead
      by_cases hf : f.name = rk
      · simp [expectedEntry, hf]
      · exact absurd hecf (expectedEntry_cf_of_ne cf rk f _ hval
          (hcov f (List.mem_cons_self _ _) hf) hf)
    · exact ih (fun g hg hgn => hcov g (List.mem_cons_of_mem _ hg) hgn) e he' hecf

/-! ## Claim C2 -/

/-- C2 counterexample, at two inputs whose family mappings cover all
non-key columns: (a) a schema that does not contain the row-key column has
*zero* entries with family `"rowkey"`; (b) a family mapping whose value for
an ordinary column is literally `"rowkey"` yields *two* such entries. -/
theorem C2_counterexample :
    (catalogEntries [(⟨"x", .str "string", true, "\x7b\x7d"⟩ : SField)] "rk"
        [("x", "i")]).map (fun es => es.countP (fun e => e.cf == "rowkey"))
      = .ok 0 ∧
    (catalogEntries [(⟨"x", .str "string", true, "\x7b\x7d"⟩ : SField),
        ⟨"rk", .str "string", true, "\x7b\x7d"⟩] "rk"
        [("x", "rowkey")]).map (fun es => es.countP (fun e => e.cf == "rowkey"))
      = .ok 2 :=
  ⟨rfl, rfl⟩

/-- C2 amended: for every flattened schema with pairwise-distinct column
names *containing the row-key column*, and every family mapping covering
all non-key columns *whose family values are never the reserved label
`"rowkey"`*, the catalog has exactly one entry with family `"rowkey"`, and
that entry's qualifier equals the row-key column name. -/
theorem C2_unique_rowkey_entry (fields : List SField) (rowkeyname : String)
    (cf : List (String × String))
    (hnd : (fields.map SField.name).Nodup)
    (hmem : rowkeyname ∈ fields.map SField.name)
    (hcov : ∀ f ∈ fields, f.name ≠ rowkeyname → (dictGet? cf f.name).isSome = true)
    (hval : ∀ p ∈ cf, p.2 ≠ "rowkey") :
    ∃ es, catalogEntries fields rowkeyname cf = .ok es ∧
      es.countP (fun e => e.cf == "rowkey") = 1 ∧
      ∀ e ∈ es, e.cf = "rowkey" → e.col = rowkeyname := by
  have h := catalogAux_eq_expected cf rowkeyname fields [] hcov (by simpa using hnd)
  refine ⟨_, h, ?_, expectedEntriesAux_rowkey_col cf rowkeyname hval fields hcov⟩
  rw [expectedEntriesAux_rowkey_count cf rowkeyname hval fields hcov]
  exact List.count_eq_one_of_mem hnd hmem

/-- Witness for C2 (amended): schema `[objectId, rk]`, row-key `rk`, family
mapping `\x7bobjectId: i\x7d`. -/
theorem C2_witness :
    (([(⟨"objectId", .str "string", true, "\x7b\x7d"⟩ : SField),
       ⟨"rk", .str "string", true, "\x7b\x7d"⟩].map SField.name).Nodup) ∧
    ("rk" ∈ [(⟨"objectId", .str "string", true, "\x7b\x7d"⟩ : SField),
             ⟨"rk", .str "string", true, "\x7b\x7d"⟩].map SField.name) ∧
    (∀ f ∈ [(⟨"objectId", .str "string", true, "\x7b\x7d"⟩ : SField),
            ⟨"rk", .str "string", true, "\x7b\x7d"⟩],
      f.name ≠ "rk" → (dictGet? [("objectId", "i")] f.name).isSome = true) ∧
    (∀ p ∈ [("objectId", "i")], p.2 ≠ "rowkey") ∧
    ∃ es, catalogEntries
        [(⟨"objectId", .str "string", true, "\x7b\x7d"⟩ : SField),
         ⟨"rk", .str "string", true, "\x7b\x7d"⟩] "rk" [("objectId", "i")] = .ok es ∧
      es.countP (fun e => e.cf == "rowkey") = 1 ∧
      ∀ e ∈ es, e.cf = "rowkey" → e.col = "rk" :=
  ⟨by decide, by decide, by decide, by decide,
    C2_unique_rowkey_entry
      [(⟨"objectId", .str "string", true, "\x7b\x7d"⟩ : SField),
       ⟨"rk", .str "string", true, "\x7b\x7d"⟩] "rk" [("objectId", "i")]
      (by decide) (by decide) (by decide) (by decide)⟩

/-! ## Claim C6 -/

/-- C6: in the catalog compiler's type coercion, a field whose declared type
is a nested structure (a JSON dict) is coerced to the generic `"string"`
tag, while the timestamp check compares a Python type object with a string
literal and thus never holds, so a `"timestamp"`-typed field keeps its
declared type unchanged. -/
theorem C6_dict_coerced_timestamp_passthrough (f g : SField)
    (hf : isDictType f.type = true) (hg : g.type = FType.str "timestamp") :
    (coerceField f).type = FType.str "string" ∧
    (∀ t s, typeObjEqStrLiteral t s = false) ∧
    (coerceField g).type = FType.str "timestamp" := by
  refine ⟨?_, fun t s => rfl, ?_⟩
  · rw [coerceField_eq, if_pos hf]
  · have hd : isDictType g.type = false := by rw [hg]; rfl
    rw [coerceField_eq, if_neg (by simp [hd]), hg]

/-- Witness for C6: an array-typed field and a timestamp-typed field. -/
theorem C6_witness :
    isDictType (⟨"prv", .dict "array", true, "\x7b\x7d"⟩ : SField).type = true ∧
    (⟨"ts", .str "timestamp", true, "\x7b\x7d"⟩ : SField).type = FType.str "timestamp" ∧
    ((coerceField ⟨"prv", .dict "array", true, "\x7b\x7d"⟩).type = FType.str "string" ∧
      (∀ t s, typeObjEqStrLiteral t s = false) ∧
      (coerceField ⟨"ts", .str "timestamp", true, "\x7b\x7d"⟩).type
        = FType.str "timestamp") :=
  ⟨by decide, by decide,
    C6_dict_coerced_timestamp_passthrough
      ⟨"prv", .dict "array", true, "\x7b\x7d"⟩
      ⟨"ts", .str "timestamp", true, "\x7b\x7d"⟩ (by decide) (by decide)⟩

/-! ## Claim C7 -/

/-- C7: whenever the schema columns include the key column,
`construct_schema_row` returns one record holding each column's declared
type at its position, except at the (first) position of the key column,
which holds the caller-supplied version label. -/
theorem C7_schema_row_types_with_version (fields : List SField)
    (rowkeyname version : String)
    (hmem : rowkeyname ∈ fields.map SField.name) :
    ∃ j out, (fields.map SField.name).findIdx? (fun n => n == rowkeyname) = some j ∧
      construct_schema_row fields rowkeyname version = .ok out ∧
      out.length = fields.length ∧
      out.get? j = some (FType.str version) ∧
      ∀ k, k ≠ j → out.get? k = (fields.map (fun f => f.type)).get? k := by
  have hex : ∃ x, x ∈ fields.map SField.name ∧ ((fun n => n == rowkeyname) x = true) :=
    ⟨rowkeyname, hmem, by simp⟩
  have hfi := List.findIdx?_eq_some_of_exists hex
  have hjlt : (fields.map SField.name).findIdx (fun n => n == rowkeyname)
      < (fields.map SField.name).length :=
    List.findIdx_lt_length_of_exists hex
  refine ⟨_, (fields.map (fun f => f.type)).set
      ((fields.map SField.name).findIdx (fun n => n == rowkeyname)) (FType.str version),
    hfi, ?_, ?_, ?_, ?_⟩
  · unfold construct_schema_row
    rw [hfi]
  · simp
  · apply List.get?_set_eq_of_lt
    simpa using hjlt
  · intro k hk
    exact List.get?_set_ne _ _ (fun h => hk h.symm)

/-- Witness for C7 at the spec's example: schema
`[objectId:string, jd:double, candid:long, schema_version:string]`, key
column `schema_version`, version `"schema_v0"` — the record is
`("string", "double", "long", "schema_v0")` in that column order. -/
theorem C7_witness :
    ("schema_version" ∈ exC7.map SField.name) ∧
    (∃ j out, (exC7.map SField.name).findIdx? (fun n => n == "schema_version") = some j ∧
      construct_schema_row exC7 "schema_version" "schema_v0" = .ok out ∧
      out.length = exC7.length ∧
      out.get? j = some (FType.str "schema_v0") ∧
      ∀ k, k ≠ j → out.get? k = (exC7.map (fun f => f.type)).get? k) ∧
    construct_schema_row exC7 "schema_version" "schema_v0"
      = .ok [.str "string", .str "double", .str "long", .str "schema_v0"] :=
  ⟨by decide,
    C7_schema_row_types_with_version exC7 "schema_version" "schema_v0" (by decide),
    rfl⟩

/-! ## Claim C10 -/

/-- C10: when the key column name occurs more than once among the input's
column names, `construct_schema_row` replaces only the value at the first
occurrence (`np.where(...)[0][0]`); every other position — including later
occurrences of the key name — keeps its declared type. -/
theorem C10_only_first_occurrence_replaced (fields : List SField)
    (rowkeyname version : String) (j k : Nat)
    (hj : (fields.map SField.name).findIdx? (fun n => n == rowkeyname) = some j)
    (hdup : (fields.map SField.name).get? k = some rowkeyname)
    (hkj : k ≠ j) :
    ∃ out, construct_schema_row fields rowkeyname version = .ok out ∧
      out.get? j = some (FType.str version) ∧
      out.get? k = (fields.map (fun f => f.type)).get? k := by
  have hjlt : j < (fields.map SField.name).length :=
    (List.findIdx?_eq_some_iff_findIdx_eq.mp hj).1
  refine ⟨(fields.map (fun f => f.type)).set j (FType.str version), ?_, ?_, ?_⟩
  · unfold construct_schema_row
    rw [hj]
  · apply List.get?_set_eq_of_lt
    simpa using hjlt
  · exact List.get?_set_ne _ _ (fun h => hkj h.symm)

/-- Witness for C10: the key name `"v"` occurs at positions 0 and 2; only
position 0 receives the version label, position 2 keeps its type. -/
theorem C10_witness :
    (([(⟨"v", .str "string", true, "\x7b\x7d"⟩ : SField),
       ⟨"x", .str "double", true, "\x7b\x7d"⟩,
       ⟨"v", .str "long", true, "\x7b\x7d"⟩].map SField.name).findIdx?
        (fun n => n == "v") = some 0) ∧
    (([(⟨"v", .str "string", true, "\x7b\x7d"⟩ : SField),
       ⟨"x", .str "double", true, "\x7b\x7d"⟩,
       ⟨"v", .str "long", true, "\x7b\x7d"⟩].map SField.name).get? 2 = some "v") ∧
    (∃ out, construct_schema_row
        [(⟨"v", .str "string", true, "\x7b\x7d"⟩ : SField),
         ⟨"x", .str "double", true, "\x7b\x7d"⟩,
         ⟨"v", .str "long", true, "\x7b\x7d"⟩] "v" "ver" = .ok out ∧
      out.get? 0 = some (FType.str "ver") ∧
      out.get? 2 = ([(⟨"v", .str "string", true, "\x7b\x7d"⟩ : SField),
         ⟨"x", .str "double", true, "\x7b\x7d"⟩,
         ⟨"v", .str "long", true, "\x7b\x7d"⟩].map (fun f => f.type)).get? 2) ∧
    construct_schema_row
        [(⟨"v", .str "string", true, "\x7b\x7d"⟩ : SField),
         ⟨"x", .str "double", true, "\x7b\x7d"⟩,
         ⟨"v", .str "long", true, "\x7b\x7d"⟩] "v" "ver"
      = .ok [.str "ver", .str "double", .str "long"] :=
  ⟨by decide, by decide,
    C10_only_first_occurrence_replaced
      [(⟨"v", .str "string", true, "\x7b\x7d"⟩ : SField),
       ⟨"x", .str "double", true, "\x7b\x7d"⟩,
       ⟨"v", .str "long", true, "\x7b\x7d"⟩] "v" "ver" 0 2 (by decide) (by decide)
      (by decide),
    rfl⟩
